import Mathlib

/-!
Verification development for the Valheim stat tracker's decoding core
(`src/app/main.py`): the skill-block locator (`find_skills_block`), the
skill decoder (`decode_skills`), the inventory record reader
(`read_u32`, `read_i32`, `read_f32`, `read_byte`, `read_u64` and the
length-prefixed string pattern), the chest item decoder
(`decode_chest_items`) and the chest aggregator (`aggregate_chests`).

Modelling conventions:
- a byte buffer is a `List Nat` (each entry a byte value 0..255; the
  definitions compute on arbitrary naturals and reduce words modulo 2^32
  where the source's fixed-width unpacking does);
- Python's `io.BytesIO` cursor is an explicit position `Nat`;
- `struct.unpack` on a short read raises `struct.error` in the source; the
  spec calls this `TruncatedRecordError`; both are modelled by
  `DecErr.truncated`;
- 32-bit floats are kept as their little-endian bit patterns (a `Nat`);
  the two float computations the source performs on them (the skill-level
  range check `0.0 <= lvl <= 1000.0` and `round(lvl, 2)`) are carried out
  exactly on the IEEE-754 binary32 value via integer arithmetic;
- Python's `bytes.decode("utf-8", errors="replace")` is modelled by
  `pyUtf8Replace` (one U+FFFD per maximal invalid subpart, CPython's
  behaviour);
- the base64 transport layer is not modelled: `decode_chest_items` takes
  the already-decoded payload bytes, with `none` standing for a missing or
  falsy `items` property (the source returns `[]` in that case before
  any base64 work happens).
-/

/-- Little-endian value of a byte list: `leNat [b0, b1, ...] = b0 + 256*b1 + ...`. -/
def leNat : List Nat → Nat
  | [] => 0
  | b :: rest => b + 256 * leNat rest

/-- Little-endian 4-byte encoding of `n % 2^32`. -/
def le4 (n : Nat) : List Nat :=
  [n % 256, n / 256 % 256, n / 2 ^ 16 % 256, n / 2 ^ 24 % 256]

/-- The `n` bytes of `data` starting at `pos` (fewer if the buffer ends). -/
def bytesAt (data : List Nat) (pos n : Nat) : List Nat :=
  (data.drop pos).take n

/-- Python `io.BytesIO.read(n)` starting from cursor `pos`: for `n >= 0`
returns `min n (len - pos)` bytes and advances the cursor by that count;
for `n < 0` it returns everything up to EOF and leaves the cursor at the
end (CPython treats any negative size as "read all"). -/
def bioRead (data : List Nat) (pos : Nat) (n : Int) : List Nat × Nat :=
  if n < 0 then (data.drop pos, data.length)
  else ((data.drop pos).take n.toNat, min (pos + n.toNat) data.length)

/-- Signed 32-bit reinterpretation of a word, as in `struct.unpack("<i", ...)`. -/
def i32val (w : Nat) : Int :=
  if w % 2 ^ 32 < 2 ^ 31 then ((w % 2 ^ 32 : Nat) : Int)
  else ((w % 2 ^ 32 : Nat) : Int) - 2 ^ 32

/-- Exactly the Python test `0.0 <= lvl <= 1000.0` on the IEEE-754 binary32
value whose bit pattern is `w`. Decomposing `w` into sign/exponent/mantissa,
the value is `(-1)^sgn * M * 2^(e' - 150)` with `M` and `e'` as below; NaN
and the infinities fail the chained comparison, `-0.0` passes it, and
`M * 2^(e' - 150) <= 1000` is decided exactly as `M * 2^e' <= 1000 * 2^150`. -/
def f32LevelOk (w0 : Nat) : Bool :=
  let w := w0 % 2 ^ 32
  let sgn := w / 2 ^ 31
  let e := w / 2 ^ 23 % 256
  let m := w % 2 ^ 23
  if e = 255 then false
  else
    let M := if e = 0 then m else 2 ^ 23 + m
    let e' := if e = 0 then 1 else e
    decide ((sgn = 0 ∨ M = 0) ∧ M * 2 ^ e' ≤ 1000 * 2 ^ 150)

/-- Python `round(lvl, 2)` on the nonnegative binary32 value with bit
pattern `w`, expressed exactly as an integer count of hundredths
(round-half-to-even, Python's rounding mode). Only applied to levels that
already passed the validity predicate, hence nonnegative and finite. -/
def levelHundredths (w0 : Nat) : Nat :=
  let w := w0 % 2 ^ 32
  let e := w / 2 ^ 23 % 256
  let m := w % 2 ^ 23
  let M := if e = 0 then m else 2 ^ 23 + m
  let e' := if e = 0 then 1 else e
  if 150 ≤ e' then 100 * M * 2 ^ (e' - 150)
  else
    let d := 2 ^ (150 - e')
    let q := 100 * M / d
    let r := 100 * M % d
    if 2 * r < d then q
    else if d < 2 * r then q + 1
    else if q % 2 = 0 then q else q + 1

/-- Is `b` a UTF-8 continuation byte (0x80..0xBF)? -/
def ucont (b : Nat) : Bool := 128 ≤ b && b ≤ 191

/-- CPython's UTF-8 decoding with `errors="replace"`: well-formed sequences
decode normally; each maximal subpart of an ill-formed sequence (including a
truncated sequence at the end of input) is replaced by one U+FFFD. The fuel
argument only bounds recursion; `pyUtf8Replace` supplies enough for the
whole input since every step consumes at least one byte. -/
def pyUtf8Go : Nat → List Nat → List Char
  | 0, _ => []
  | _ + 1, [] => []
  | fuel + 1, b :: rest =>
    if b < 128 then Char.ofNat b :: pyUtf8Go fuel rest
    else if 194 ≤ b && b ≤ 223 then
      match rest with
      | c1 :: rest2 =>
        if ucont c1 then Char.ofNat ((b - 192) * 64 + (c1 - 128)) :: pyUtf8Go fuel rest2
        else Char.ofNat 65533 :: pyUtf8Go fuel rest
      | [] => [Char.ofNat 65533]
    else if 224 ≤ b && b ≤ 239 then
      match rest with
      | c1 :: rest2 =>
        if (if b = 224 then decide (160 ≤ c1) && decide (c1 ≤ 191)
            else if b = 237 then decide (128 ≤ c1) && decide (c1 ≤ 159)
            else ucont c1) then
          match rest2 with
          | c2 :: rest3 =>
            if ucont c2 then
              Char.ofNat (((b - 224) * 64 + (c1 - 128)) * 64 + (c2 - 128)) :: pyUtf8Go fuel rest3
            else Char.ofNat 65533 :: pyUtf8Go fuel rest2
          | [] => [Char.ofNat 65533]
        else Char.ofNat 65533 :: pyUtf8Go fuel rest
      | [] => [Char.ofNat 65533]
    else if 240 ≤ b && b ≤ 244 then
      match rest with
      | c1 :: rest2 =>
        if (if b = 240 then decide (144 ≤ c1) && decide (c1 ≤ 191)
            else if b = 244 then decide (128 ≤ c1) && decide (c1 ≤ 143)
            else ucont c1) then
          match rest2 with
          | c2 :: rest3 =>
            if ucont c2 then
              match rest3 with
              | c3 :: rest4 =>
                if ucont c3 then
                  Char.ofNat ((((b - 240) * 64 + (c1 - 128)) * 64 + (c2 - 128)) * 64 + (c3 - 128))
                    :: pyUtf8Go fuel rest4
                else Char.ofNat 65533 :: pyUtf8Go fuel rest3
              | [] => [Char.ofNat 65533]
            else Char.ofNat 65533 :: pyUtf8Go fuel rest2
          | [] => [Char.ofNat 65533]
        else Char.ofNat 65533 :: pyUtf8Go fuel rest
      | [] => [Char.ofNat 65533]
    else Char.ofNat 65533 :: pyUtf8Go fuel rest

/-- `bytes.decode("utf-8", errors="replace")`. -/
def pyUtf8Replace (bs : List Nat) : String := String.mk (pyUtf8Go bs.length bs)

/-- A failed `struct.unpack` on a short read (`struct.error` in the source;
`TruncatedRecordError` in the spec's taxonomy). -/
inductive DecErr where
  | truncated
  deriving DecidableEq, Repr

/-- Is an `Except` result a success? -/
def isOkE {ε α : Type} : Except ε α → Bool
  | .ok _ => true
  | .error _ => false

/-- `read_u32(buf)`: `struct.unpack("<I", buf.read(4))[0]` — `buf.read(4)`
returns the available bytes and `struct.unpack` fails unless exactly 4 were
produced. -/
def read_u32 (data : List Nat) (pos : Nat) : Except DecErr (Nat × Nat) :=
  let r := bioRead data pos 4
  if r.1.length = 4 then Except.ok (leNat r.1, r.2) else Except.error DecErr.truncated

/-- `read_i32(buf)`: `struct.unpack("<i", buf.read(4))[0]`. -/
def read_i32 (data : List Nat) (pos : Nat) : Except DecErr (Int × Nat) :=
  let r := bioRead data pos 4
  if r.1.length = 4 then Except.ok (i32val (leNat r.1), r.2) else Except.error DecErr.truncated

/-- `read_f32(buf)`: `struct.unpack("<f", buf.read(4))[0]`; the float is
kept as its 32-bit little-endian bit pattern. -/
def read_f32 (data : List Nat) (pos : Nat) : Except DecErr (Nat × Nat) :=
  let r := bioRead data pos 4
  if r.1.length = 4 then Except.ok (leNat r.1, r.2) else Except.error DecErr.truncated

/-- `read_byte(buf)`: `struct.unpack("<B", buf.read(1))[0]`. -/
def read_byte (data : List Nat) (pos : Nat) : Except DecErr (Nat × Nat) :=
  let r := bioRead data pos 1
  if r.1.length = 1 then Except.ok (leNat r.1, r.2) else Except.error DecErr.truncated

/-- `read_u64(buf)`: `struct.unpack("<Q", buf.read(8))[0]`. -/
def read_u64 (data : List Nat) (pos : Nat) : Except DecErr (Nat × Nat) :=
  let r := bioRead data pos 8
  if r.1.length = 8 then Except.ok (leNat r.1, r.2) else Except.error DecErr.truncated

/-- The length-prefixed string pattern of the source
(`n = read_byte(buf); buf.read(n).decode("utf-8", errors="replace")`),
used for both the item name and the crafter name. Note the body read is a
plain `buf.read(n)`: it returns whatever bytes are available and never
raises, even when fewer than `n` bytes remain. -/
def read_lp_string (data : List Nat) (pos : Nat) : Except DecErr (String × Nat) :=
  match read_byte data pos with
  | .error e => .error e
  | .ok (n, p1) =>
    let r := bioRead data p1 (n : Int)
    .ok (pyUtf8Replace r.1, r.2)

/-- One decoded inventory item (`results.append({...})` in the source).
Float fields are kept as bit patterns; `equipped` is `bool(equipped)`. -/
structure ItemRec where
  name : String
  stack : Int
  durability : Nat
  equipped : Bool
  quality : Int
  variant : Int
  crafter_id : Nat
  crafter_name : Option String
  deriving DecidableEq, Repr

/-- The trailing-skip count of one item record, as the source computes it:
`remaining = 35 - (1 + 4 + 4 + 8 + 1)` (= 17), then
`if has_crafter_name and crafter_name: remaining -= (1 + len(crafter_name))`.
The flag is nonzero exactly when `crafter_name` is `some`, and the Python
truthiness test additionally requires the decoded string to be non-empty;
`len` counts code points of the decoded string. -/
def itemRemaining (cn : Option String) : Int :=
  17 - (match cn with
        | some s => if s = "" then 0 else 1 + (s.length : Int)
        | none => 0)

/-- The reads of one item record up to and including the optional crafter
name (source lines 204-220), returning the record and the cursor position
right after the crafter-name field. -/
def decodeItemPre (data : List Nat) (pos : Nat) : Except DecErr (ItemRec × Nat) :=
  match read_lp_string data pos with
  | .error e => .error e
  | .ok (name, p1) =>
  match read_i32 data p1 with
  | .error e => .error e
  | .ok (stack, p2) =>
  match read_f32 data p2 with
  | .error e => .error e
  | .ok (durability, p3) =>
  match read_byte data p3 with
  | .error e => .error e
  | .ok (equipped, p4) =>
  match read_i32 data p4 with
  | .error e => .error e
  | .ok (quality, p5) =>
  match read_i32 data p5 with
  | .error e => .error e
  | .ok (variant, p6) =>
  match read_u64 data p6 with
  | .error e => .error e
  | .ok (crafter_id, p7) =>
  match read_byte data p7 with
  | .error e => .error e
  | .ok (flag, p8) =>
    if flag ≠ 0 then
      match read_lp_string data p8 with
      | .error e => .error e
      | .ok (cn, p9) =>
        .ok (⟨name, stack, durability, equipped ≠ 0, quality, variant, crafter_id, some cn⟩, p9)
    else
      .ok (⟨name, stack, durability, equipped ≠ 0, quality, variant, crafter_id, none⟩, p8)

/-- One full item record: the reads above followed by `buf.read(remaining)`
(source line 225), which for a negative `remaining` consumes everything up
to EOF and otherwise consumes `min remaining (bytes left)`. -/
def decodeItem (data : List Nat) (pos : Nat) : Except DecErr (ItemRec × Nat) :=
  match decodeItemPre data pos with
  | .error e => .error e
  | .ok (r, p) =>
    let s := bioRead data p (itemRemaining r.crafter_name)
    .ok (r, s.2)

/-- `for _ in range(count)` over item records. -/
def decodeItems (data : List Nat) : Nat → Nat → Except DecErr (List ItemRec × Nat)
  | pos, 0 => Except.ok ([], pos)
  | pos, n + 1 =>
    match decodeItem data pos with
    | .error e => .error e
    | .ok (r, p2) =>
      match decodeItems data p2 n with
      | .error e => .error e
      | .ok (rs, pe) => .ok (r :: rs, pe)

/-- `decode_chest_items(zdo)`: `none` models a missing/falsy `items`
property (the source returns `[]` before touching base64); `some raw` is
the base64-decoded payload. Then: header word, count word, `count` item
records. -/
def decode_chest_items : Option (List Nat) → Except DecErr (List ItemRec)
  | none => .ok []
  | some raw =>
    match read_u32 raw 0 with
    | .error e => .error e
    | .ok (_, p1) =>
      match read_u32 raw p1 with
      | .error e => .error e
      | .ok (count, p2) =>
        match decodeItems raw p2 count with
        | .error e => .error e
        | .ok (rs, _) => .ok rs

/-- One world object as `aggregate_chests` reads it: its `prefabName`
(possibly absent) and its inventory payload (`none` models a missing or
falsy base64 `items` string). -/
structure Zdo where
  prefabName : Option String
  items : Option (List Nat)

/-- ASCII lower-casing of one character (prefab names are ASCII; Python's
`str.lower()` agrees with this on the ASCII range). -/
def chLower (c : Char) : Char :=
  if 65 ≤ c.toNat ∧ c.toNat ≤ 90 then Char.ofNat (c.toNat + 32) else c

/-- Python `str.lower()` on the ASCII range. -/
def pyLower (s : String) : String := String.mk (s.data.map chLower)

/-- Is `needle` a prefix of `hay`? -/
def chPref : List Char → List Char → Bool
  | [], _ => true
  | _ :: _, [] => false
  | a :: as, b :: bs => a == b && chPref as bs

/-- Python's substring test `needle in hay` on char lists. -/
def chSub (needle : List Char) : List Char → Bool
  | [] => chPref needle []
  | b :: bs => chPref needle (b :: bs) || chSub needle bs

/-- The source's chest test: `"piece_chest" in (z.get("prefabName") or "").lower()`. -/
def isChest (z : Zdo) : Bool :=
  chSub "piece_chest".toList (pyLower (z.prefabName.getD "")).toList

/-- `totals[name] += stack` on a `defaultdict(int)` kept in insertion
order. -/
def addTotal : List (String × Int) → String → Int → List (String × Int)
  | [], k, v => [(k, v)]
  | (k', v') :: rest, k, v =>
    if k' = k then (k', v' + v) :: rest else (k', v') :: addTotal rest k v

/-- Fold one decoded item list into the running totals. -/
def addItems (t : List (String × Int)) (items : List ItemRec) : List (String × Int) :=
  items.foldl (fun t it => addTotal t it.name it.stack) t

/-- The loop body of `aggregate_chests`: skip non-chests, log-and-skip
chests with no payload, otherwise decode and accumulate; a decode error
propagates out of the whole call. -/
def aggAux : List Zdo → List (String × Int) → Except DecErr (List (String × Int))
  | [], t => .ok t
  | z :: zs, t =>
    if isChest z then
      match z.items with
      | some _ =>
        match decode_chest_items z.items with
        | .error e => .error e
        | .ok items => aggAux zs (addItems t items)
      | none => aggAux zs t
    else aggAux zs t

/-- `aggregate_chests(world_json_obj)` over the object list: per-item-name
stack totals. -/
def aggregate_chests (zs : List Zdo) : Except DecErr (List (String × Int)) :=
  aggAux zs []

/-- The signed skill id at `pos`: first 4 bytes of `struct.unpack_from("<iff", data, pos)`. -/
def sidAt (data : List Nat) (pos : Nat) : Int := i32val (leNat (bytesAt data pos 4))

/-- The level bit pattern at `pos`: second field of the `<iff` triple. -/
def lvlWordAt (data : List Nat) (pos : Nat) : Nat := leNat (bytesAt data (pos + 4) 4)

/-- The record validity predicate `0 < sid < 200 and 0.0 <= lvl <= 1000.0`. -/
def validAt (data : List Nat) (pos : Nat) : Bool :=
  (decide (0 < sidAt data pos) && decide (sidAt data pos < 200)) && f32LevelOk (lvlWordAt data pos)

/-- The inner `while` of `find_skills_block`: count consecutive valid
records from `pos`, stopping at the buffer end, at an invalid record, or
at 64 records (the fuel starts at 64 and the loop condition
`pos + entry <= len(data) and count < 64` is checked before each unpack). -/
def runLenAux (data : List Nat) : Nat → Nat → Nat
  | 0, _ => 0
  | fuel + 1, pos =>
    if pos + 12 ≤ data.length then
      if validAt data pos then 1 + runLenAux data fuel (pos + 12) else 0
    else 0

/-- Length of the valid-record run starting at `pos`, capped at 64. -/
def runLen (data : List Nat) (pos : Nat) : Nat := runLenAux data 64 pos

/-- One step of the best-run scan: `if count > best_count: best_count =
count; best_start = start`. -/
def scanStep (data : List Nat) (b : Option Nat × Nat) (i : Nat) : Option Nat × Nat :=
  if b.2 < runLen data i then (some i, runLen data i) else b

/-- `find_skills_block(data)`: scan candidate starts
`range(0, len(data) - 12)` and keep the first maximum. -/
def find_skills_block (data : List Nat) : Option Nat × Nat :=
  (List.range (data.length - 12)).foldl (scanStep data) (none, 0)

/-- `SKILL_MAP.get(sid, f"Skill_{sid}")`. The static `SKILL_MAP` table
lives in `constants.py`, which is not part of the sources; per the spec it
is a read-only id-to-name dictionary, modelled as an arbitrary partial
function `m`. -/
def skillName (m : Int → Option String) (sid : Int) : String :=
  (m sid).getD ("Skill_" ++ toString sid)

/-- `dict` assignment `tbl[k] = v` (Python 3.7 semantics: overwrite in
place, else append). -/
def dictInsert : List (String × Nat) → String → Nat → List (String × Nat)
  | [], k, v => [(k, v)]
  | (k', v') :: rest, k, v =>
    if k' = k then (k, v) :: rest else (k', v') :: dictInsert rest k v

/-- `dict` lookup. -/
def dictGet : List (String × Nat) → String → Option Nat
  | [], _ => none
  | (k', v') :: rest, k => if k' = k then some v' else dictGet rest k

/-- Insert a list of key-value pairs left to right. -/
def insertPairs (t : List (String × Nat)) (ps : List (String × Nat)) : List (String × Nat) :=
  ps.foldl (fun a p => dictInsert a p.1 p.2) t

/-- Last element of `xs` satisfying `p`, if any. -/
def lastMatch {α : Type} (p : α → Bool) (xs : List α) : Option α :=
  xs.foldl (fun acc x => if p x then some x else acc) none

/-- The `(sid, level-bit-pattern)` pairs the `decode_skills` loop accepts,
walking 12-byte records from `pos` while in bounds and valid. The fuel is
only a recursion bound; `skillRecs` supplies more than the loop can use. -/
def skillRecAux (data : List Nat) : Nat → Nat → List (Int × Nat)
  | 0, _ => []
  | fuel + 1, pos =>
    if pos + 12 ≤ data.length then
      if validAt data pos then
        (sidAt data pos, lvlWordAt data pos) :: skillRecAux data fuel (pos + 12)
      else []
    else []

/-- The accepted record sequence starting at `pos`. -/
def skillRecs (data : List Nat) (pos : Nat) : List (Int × Nat) :=
  skillRecAux data (data.length + 1) pos

/-- The `decode_skills` table-building loop: for each accepted record,
`skills[SKILL_MAP.get(sid, f"Skill_{sid}")] = round(lvl, 2)`. -/
def decodeSkillsGo (m : Int → Option String) (data : List Nat) :
    Nat → Nat → List (String × Nat) → List (String × Nat)
  | 0, _, tbl => tbl
  | fuel + 1, pos, tbl =>
    if pos + 12 ≤ data.length then
      if validAt data pos then
        decodeSkillsGo m data fuel (pos + 12)
          (dictInsert tbl (skillName m (sidAt data pos)) (levelHundredths (lvlWordAt data pos)))
      else tbl
    else tbl

/-- The skill table built from the located block start. -/
def decode_skills_table (m : Int → Option String) (data : List Nat) (start : Nat) :
    List (String × Nat) :=
  decodeSkillsGo m data (data.length + 1) start []

/-- `decode_skills` after the file read: locate the block, raise when
`start is None or count == 0`, else build the table. -/
def decode_skills (m : Int → Option String) (data : List Nat) :
    Except String (List (String × Nat)) :=
  match find_skills_block data with
  | (none, _) => .error "Could not locate skills block"
  | (some s, c) =>
    if c = 0 then .error "Could not locate skills block"
    else .ok (decode_skills_table m data s)


/-! ## Concrete inputs used by witnesses and counterexamples -/

/-- A 17-character crafter name (17 'B's): `1 + 17` exceeds the 17-byte
trailing budget, so `remaining` is negative for this record. -/
def c1name : String := String.mk (List.replicate 17 'B')

/-- Chest payload: one item named "A" whose crafter-name field holds 17
bytes, followed by 3 junk bytes. Its computed `remaining` is `-1`. -/
def c1buf : List Nat :=
  [0, 0, 0, 0, 1, 0, 0, 0, 1, 65, 1, 0, 0, 0, 0, 0, 0, 0, 0, 0, 0, 0, 0, 0, 0, 0, 0,
   0, 0, 0, 0, 0, 0, 0, 0, 1, 17] ++ List.replicate 17 66 ++ [9, 9, 9]

/-- The item record `c1buf` decodes to. -/
def c1rec : ItemRec := ⟨"A", 1, 0, false, 0, 0, 0, some c1name⟩

/-- One item record whose has-crafter-name flag is 1 but whose crafter
name is empty (`crafter_name_len = 0`), with 20 trailing filler bytes.
The crafter-name field ends at position 28. -/
def c2buf : List Nat :=
  [0, 1, 0, 0, 0, 0, 0, 0, 0, 0, 0, 0, 0, 0, 0, 0, 0, 0, 0, 0, 0, 0, 0, 0, 0, 0, 1, 0] ++
    List.replicate 20 7

/-- The record `c2buf` decodes to: flag set, empty crafter name. -/
def c2rec : ItemRec := ⟨"", 1, 0, false, 0, 0, 0, some ""⟩

/-- One item record whose crafter name is the 2-byte UTF-8 sequence
`C3 A9` (one code point), with 20 trailing filler bytes. The crafter-name
field ends at position 30. -/
def c2buf2 : List Nat :=
  [0, 1, 0, 0, 0, 0, 0, 0, 0, 0, 0, 0, 0, 0, 0, 0, 0, 0, 0, 0, 0, 0, 0, 0, 0, 0, 1, 2,
   195, 169] ++ List.replicate 20 7

/-- The record `c2buf2` decodes to: a one-character crafter name. -/
def c2rec2 : ItemRec := ⟨"", 1, 0, false, 0, 0, 0, some (String.mk [Char.ofNat 233])⟩

/-- A buffer of exactly one valid skill record (sid 1, level 0.0). -/
def sk12 : List Nat := [1, 0, 0, 0, 0, 0, 0, 0, 0, 0, 0, 0]

/-- A junk byte followed by a run of two valid skill records
(sids 1 and 2, levels 0.0): the run starts at offset 1 and every other
readable offset fails the validity predicate. -/
def c4buf : List Nat :=
  [255, 1, 0, 0, 0, 0, 0, 0, 0, 0, 0, 0, 0, 2, 0, 0, 0, 0, 0, 0, 0, 0, 0, 0, 0]

/-- Two separated single-record runs (offsets 0 and 13) of equal length 1:
a tie between candidate starts. -/
def c5buf : List Nat :=
  [1, 0, 0, 0, 0, 0, 0, 0, 0, 0, 0, 0, 255, 1, 0, 0, 0, 0, 0, 0, 0, 0, 0, 0, 0, 0]

/-- Two valid records with the same skill id 1: level 0.0 then level 2.0
(bit pattern `0x40000000`, little-endian bytes `0 0 0 64`). -/
def c10buf : List Nat :=
  [1, 0, 0, 0, 0, 0, 0, 0, 0, 0, 0, 0, 1, 0, 0, 0, 0, 0, 0, 64, 0, 0, 0, 0]

/-- A concrete stand-in for the static skill-name table: id 1 is named. -/
def c10m : Int → Option String := fun i => if i = 1 then some "Swords" else none

/-- Chest payload holding a single stack of 10 "Wood". -/
def woodPayload : List Nat :=
  [0, 0, 0, 0, 1, 0, 0, 0, 4, 87, 111, 111, 100, 10, 0, 0, 0, 0, 0, 0, 0, 0, 1, 0, 0, 0,
   0, 0, 0, 0, 0, 0, 0, 0, 0, 0, 0, 0, 0] ++ List.replicate 17 0

/-- A chest (mixed-case prefab) holding the wood payload. -/
def woodZ : Zdo := ⟨some "Piece_Chest_Wood", some woodPayload⟩

/-- A non-chest object that nevertheless carries the wood payload. -/
def plainZ : Zdo := ⟨some "stone_pile", some woodPayload⟩

/-- A chest whose payload is a single byte: its header read is truncated. -/
def badZ : Zdo := ⟨some "piece_chestX", some [0]⟩

/-! ## Reader lemmas -/

theorem bioRead_coe (data : List Nat) (pos n : Nat) :
    bioRead data pos (n : Int) = ((data.drop pos).take n, min (pos + n) data.length) := by
  unfold bioRead
  rw [if_neg (Int.not_lt.mpr (Int.natCast_nonneg n))]
  rw [Int.toNat_natCast]

theorem read_u32_eq (data : List Nat) (pos : Nat) :
    read_u32 data pos =
      if pos + 4 ≤ data.length then Except.ok (leNat ((data.drop pos).take 4), pos + 4)
      else Except.error DecErr.truncated := by
  have hb : bioRead data pos 4 = ((data.drop pos).take 4, min (pos + 4) data.length) := by
    unfold bioRead; norm_num; try exact ⟨rfl, rfl⟩
  unfold read_u32
  rw [hb]
  by_cases h : pos + 4 ≤ data.length
  · rw [if_pos h]
    simp only []
    rw [if_pos (by simp [List.length_take]; omega)]
    exact congrArg _ (Prod.ext rfl (by simp [Nat.min_def]; omega))
  · rw [if_neg h]
    simp only []
    rw [if_neg (by simp [List.length_take]; omega)]

theorem read_i32_eq (data : List Nat) (pos : Nat) :
    read_i32 data pos =
      if pos + 4 ≤ data.length then Except.ok (i32val (leNat ((data.drop pos).take 4)), pos + 4)
      else Except.error DecErr.truncated := by
  have hb : bioRead data pos 4 = ((data.drop pos).take 4, min (pos + 4) data.length) := by
    unfold bioRead; norm_num; try exact ⟨rfl, rfl⟩
  unfold read_i32
  rw [hb]
  by_cases h : pos + 4 ≤ data.length
  · rw [if_pos h]
    simp only []
    rw [if_pos (by simp [List.length_take]; omega)]
    exact congrArg _ (Prod.ext rfl (by simp [Nat.min_def]; omega))
  · rw [if_neg h]
    simp only []
    rw [if_neg (by simp [List.length_take]; omega)]

theorem read_f32_eq (data : List Nat) (pos : Nat) :
    read_f32 data pos =
      if pos + 4 ≤ data.length then Except.ok (leNat ((data.drop pos).take 4), pos + 4)
      else Except.error DecErr.truncated := by
  have hb : bioRead data pos 4 = ((data.drop pos).take 4, min (pos + 4) data.length) := by
    unfold bioRead; norm_num; try exact ⟨rfl, rfl⟩
  unfold read_f32
  rw [hb]
  by_cases h : pos + 4 ≤ data.length
  · rw [if_pos h]
    simp only []
    rw [if_pos (by simp [List.length_take]; omega)]
    exact congrArg _ (Prod.ext rfl (by simp [Nat.min_def]; omega))
  · rw [if_neg h]
    simp only []
    rw [if_neg (by simp [List.length_take]; omega)]

theorem read_byte_eq (data : List Nat) (pos : Nat) :
    read_byte data pos =
      if pos + 1 ≤ data.length then Except.ok (leNat ((data.drop pos).take 1), pos + 1)
      else Except.error DecErr.truncated := by
  have hb : bioRead data pos 1 = ((data.drop pos).take 1, min (pos + 1) data.length) := by
    unfold bioRead; norm_num; try exact ⟨rfl, rfl⟩
  unfold read_byte
  rw [hb]
  by_cases h : pos + 1 ≤ data.length
  · rw [if_pos h]
    simp only []
    rw [if_pos (by simp [List.length_take]; omega)]
    exact congrArg _ (Prod.ext rfl (by simp [Nat.min_def]; omega))
  · rw [if_neg h]
    simp only []
    rw [if_neg (by simp [List.length_take]; omega)]

theorem read_u64_eq (data : List Nat) (pos : Nat) :
    read_u64 data pos =
      if pos + 8 ≤ data.length then Except.ok (leNat ((data.drop pos).take 8), pos + 8)
      else Except.error DecErr.truncated := by
  have hb : bioRead data pos 8 = ((data.drop pos).take 8, min (pos + 8) data.length) := by
    unfold bioRead; norm_num; try exact ⟨rfl, rfl⟩
  unfold read_u64
  rw [hb]
  by_cases h : pos + 8 ≤ data.length
  · rw [if_pos h]
    simp only []
    rw [if_pos (by simp [List.length_take]; omega)]
    exact congrArg _ (Prod.ext rfl (by simp [Nat.min_def]; omega))
  · rw [if_neg h]
    simp only []
    rw [if_neg (by simp [List.length_take]; omega)]

/-- C3 (amended): each fixed-width read — `read_u32`, `read_i32`,
`read_f32`, `read_byte`, `read_u64` — succeeds exactly when the full field
fits in the buffer, fails with the truncation error (`struct.error`, the
spec's `TruncatedRecordError`) otherwise, and on success returns the value
assembled from exactly the declared number of bytes at the cursor and
advances the cursor by exactly that width. The length-prefixed string
read, by contrast, can fail only on its one-byte length prefix: once that
byte is in bounds it always succeeds, even when its declared body extends
past the end of the buffer. -/
theorem c3_reader_bounds (data : List Nat) (pos : Nat) :
    (isOkE (read_u32 data pos) = decide (pos + 4 ≤ data.length)) ∧
    (∀ v p2, read_u32 data pos = .ok (v, p2) → v = leNat (bytesAt data pos 4) ∧ p2 = pos + 4) ∧
    (isOkE (read_i32 data pos) = decide (pos + 4 ≤ data.length)) ∧
    (∀ v p2, read_i32 data pos = .ok (v, p2) →
      v = i32val (leNat (bytesAt data pos 4)) ∧ p2 = pos + 4) ∧
    (isOkE (read_f32 data pos) = decide (pos + 4 ≤ data.length)) ∧
    (∀ v p2, read_f32 data pos = .ok (v, p2) → v = leNat (bytesAt data pos 4) ∧ p2 = pos + 4) ∧
    (isOkE (read_byte data pos) = decide (pos + 1 ≤ data.length)) ∧
    (∀ v p2, read_byte data pos = .ok (v, p2) → v = leNat (bytesAt data pos 1) ∧ p2 = pos + 1) ∧
    (isOkE (read_u64 data pos) = decide (pos + 8 ≤ data.length)) ∧
    (∀ v p2, read_u64 data pos = .ok (v, p2) → v = leNat (bytesAt data pos 8) ∧ p2 = pos + 8) ∧
    (pos + 1 ≤ data.length → isOkE (read_lp_string data pos) = true) ∧
    (data.length < pos + 1 → read_lp_string data pos = .error DecErr.truncated) := by
  refine ⟨?_, ?_, ?_, ?_, ?_, ?_, ?_, ?_, ?_, ?_, ?_, ?_⟩
  · rw [read_u32_eq]; by_cases h : pos + 4 ≤ data.length <;> simp [h, isOkE]
  · rw [read_u32_eq]
    by_cases h : pos + 4 ≤ data.length
    · simp only [if_pos h, Except.ok.injEq, Prod.mk.injEq, bytesAt]
      rintro v p2 ⟨hv, hp⟩
      exact ⟨hv.symm, hp.symm⟩
    · simp [if_neg h]
  · rw [read_i32_eq]; by_cases h : pos + 4 ≤ data.length <;> simp [h, isOkE]
  · rw [read_i32_eq]
    by_cases h : pos + 4 ≤ data.length
    · simp only [if_pos h, Except.ok.injEq, Prod.mk.injEq, bytesAt]
      rintro v p2 ⟨hv, hp⟩
      exact ⟨hv.symm, hp.symm⟩
    · simp [if_neg h]
  · rw [read_f32_eq]; by_cases h : pos + 4 ≤ data.length <;> simp [h, isOkE]
  · rw [read_f32_eq]
    by_cases h : pos + 4 ≤ data.length
    · simp only [if_pos h, Except.ok.injEq, Prod.mk.injEq, bytesAt]
      rintro v p2 ⟨hv, hp⟩
      exact ⟨hv.symm, hp.symm⟩
    · simp [if_neg h]
  · rw [read_byte_eq]; by_cases h : pos + 1 ≤ data.length <;> simp [h, isOkE]
  · rw [read_byte_eq]
    by_cases h : pos + 1 ≤ data.length
    · simp only [if_pos h, Except.ok.injEq, Prod.mk.injEq, bytesAt]
      rintro v p2 ⟨hv, hp⟩
      exact ⟨hv.symm, hp.symm⟩
    · simp [if_neg h]
  · rw [read_u64_eq]; by_cases h : pos + 8 ≤ data.length <;> simp [h, isOkE]
  · rw [read_u64_eq]
    by_cases h : pos + 8 ≤ data.length
    · simp only [if_pos h, Except.ok.injEq, Prod.mk.injEq, bytesAt]
      rintro v p2 ⟨hv, hp⟩
      exact ⟨hv.symm, hp.symm⟩
    · simp [if_neg h]
  · intro h
    unfold read_lp_string
    rw [read_byte_eq, if_pos h]
    simp [isOkE]
  · intro h
    unfold read_lp_string
    rw [read_byte_eq, if_neg (by omega)]

/-- Witness for C3 at concrete inputs: an in-bounds u32 read, an in-bounds
lp-string length byte, and an out-of-bounds lp-string length byte. -/
theorem c3_reader_bounds_witness :
    isOkE (read_u32 [1, 0, 0, 0] 0) = decide (0 + 4 ≤ ([1, 0, 0, 0] : List Nat).length) ∧
    isOkE (read_lp_string [5] 0) = true ∧
    read_lp_string [9] 1 = .error DecErr.truncated := by
  refine ⟨(c3_reader_bounds [1, 0, 0, 0] 0).1, ?_, ?_⟩
  · exact (c3_reader_bounds [5] 0).2.2.2.2.2.2.2.2.2.2.1 (by decide)
  · exact (c3_reader_bounds [9] 1).2.2.2.2.2.2.2.2.2.2.2 (by decide)

/-- Counterexample for C3 as stated: on the buffer `[5]` the
length-prefixed string read declares a 5-byte body that extends past the
end of the buffer, yet it does not fail with the truncation error — it
succeeds, returning a string assembled from 0 of the 5 declared bytes, and
advances the cursor only past the length byte (to 1, not 1 + 5). -/
theorem c3_counterexample :
    read_lp_string [5] 0 = Except.ok ("", 1) ∧ (1 : Nat) ≠ 0 + 1 + 5 := by
  exact ⟨rfl, by decide⟩

/-! ## C8: absent payload and zero item count -/

/-- C8: a container with no inventory payload decodes to the empty item
list without error, and so does every payload made of an arbitrary header
word, an item-count word of zero, and arbitrary trailing bytes; both
results are `Except.ok`, distinguishable from every error result. -/
theorem c8_empty_ok :
    decode_chest_items none = Except.ok ([] : List ItemRec) ∧
    ∀ (h : Nat) (rest : List Nat),
      decode_chest_items (some (le4 h ++ (le4 0 ++ rest))) = Except.ok ([] : List ItemRec) := by
  constructor
  · rfl
  · intro h rest
    have hlen : (le4 h).length = 4 := rfl
    have hlen0 : (le4 0).length = 4 := rfl
    have h1 : read_u32 (le4 h ++ (le4 0 ++ rest)) 0 = .ok (leNat (le4 h), 4) := by
      rw [read_u32_eq, if_pos (by simp; omega)]
      simp [List.take_left' hlen]
    have hdrop : (le4 h ++ (le4 0 ++ rest)).drop 4 = le4 0 ++ rest := List.drop_left' hlen
    have h2 : read_u32 (le4 h ++ (le4 0 ++ rest)) 4 = .ok (0, 8) := by
      rw [read_u32_eq, if_pos (by simp; omega)]
      rw [hdrop, List.take_left' hlen0]
      rfl
    simp [decode_chest_items, h1, h2, decodeItems]

/-! ## C2: the trailing skip of an item record -/

/-- C2 (amended): after the optional crafter name (cursor `p2`), the
record decode consumes `remaining = 17 - skip` trailing bytes, where
`skip` is `1 + len(crafter_name)` only when the crafter-name flag is
nonzero AND the decoded crafter name is non-empty (Python truthiness) —
so `skip = 0` when the flag is zero and also when the flag is nonzero but
the name is empty — and `len` counts code points of the decoded string,
not bytes of the field. The cursor advances by `min remaining (bytes
left)`; a negative `remaining` consumes everything to the end of the
buffer. -/
theorem c2_trailing_skip :
    (∀ (data : List Nat) (pos : Nat) (r : ItemRec) (p2 : Nat),
      decodeItemPre data pos = .ok (r, p2) →
      decodeItem data pos =
        .ok (r, if itemRemaining r.crafter_name < 0 then data.length
                else min (p2 + (itemRemaining r.crafter_name).toNat) data.length)) ∧
    itemRemaining none = 17 ∧
    itemRemaining (some "") = 17 ∧
    (∀ s : String, s ≠ "" → itemRemaining (some s) = 17 - (1 + (s.length : Int))) := by
  refine ⟨?_, rfl, rfl, ?_⟩
  · intro data pos r p2 h
    unfold decodeItem
    rw [h]
    unfold bioRead
    by_cases hr : itemRemaining r.crafter_name < 0
    · simp [hr]
    · simp [hr]
  · intro s hs
    simp [itemRemaining, hs]

/-- Witness for C2: the amended skip equation evaluated on `c2buf`
(flag 1, empty crafter name, so `remaining = 17` and the cursor lands at
`min (28 + 17) 48 = 45`), plus the non-empty-name skip formula at "x". -/
theorem c2_trailing_skip_witness :
    decodeItem c2buf 0 = Except.ok (c2rec, 45) ∧ itemRemaining (some "x") = 15 := by
  constructor
  · exact (c2_trailing_skip.1 c2buf 0 c2rec 28 rfl).trans rfl
  · exact (c2_trailing_skip.2.2.2 "x" (by decide)).trans (by decide)

/-- Counterexample for C2 as stated. First record (`c2buf`): the
has-crafter-name flag is nonzero and the crafter name has length zero; the
claim's formula subtracts `1 + 0` and predicts the next record at
`28 + 16 = 44`, but the code subtracts nothing and the cursor lands at
`28 + 17 = 45`. Second record (`c2buf2`): the crafter-name field holds 2
bytes decoding to 1 code point; counting bytes the claim predicts
`30 + (17 - 2) = 44`, but the code counts code points and lands at
`30 + (17 - 1) = 45`. -/
theorem c2_counterexample :
    (decodeItem c2buf 0 = Except.ok (c2rec, 45) ∧ 45 ≠ 28 + 16) ∧
    (decodeItem c2buf2 0 = Except.ok (c2rec2, 45) ∧ 45 ≠ 30 + 14) := by
  exact ⟨⟨rfl, by decide⟩, ⟨rfl, by decide⟩⟩

/-! ## C1: negative remaining -/

/-- C1: the payload `c1buf` carries a crafter name of 17 characters, so
the computed `remaining` is `17 - (1 + 17) = -1` — yet `decode_chest_items`
raises nothing: `buf.read(-1)` silently consumes every remaining byte
(including the 3 junk bytes) and the call returns the decoded record as a
success. No `MalformedRecordError` exists anywhere in the code. -/
theorem c1_negative_remaining_not_an_error :
    itemRemaining (some c1name) = -1 ∧
    decode_chest_items (some c1buf) = Except.ok [c1rec] := by
  exact ⟨by decide, rfl⟩

/-! ## Aggregation lemmas -/

theorem aggAux_append (zs₂ : List Zdo) : ∀ (zs₁ : List Zdo) (t : List (String × Int)),
    aggAux (zs₁ ++ zs₂) t =
      match aggAux zs₁ t with
      | .ok t2 => aggAux zs₂ t2
      | .error e => .error e := by
  intro zs₁
  induction zs₁ with
  | nil => intro t; rfl
  | cons z zs ih =>
    intro t
    cases hc : isChest z with
    | true =>
      cases hi : z.items with
      | some raw =>
        cases hd : decode_chest_items (some raw) with
        | ok items => simp [aggAux, hc, hi, hd, ih]
        | error e => simp [aggAux, hc, hi, hd]
      | none => simp [aggAux, hc, hi, ih]
    | false => simp [aggAux, hc, ih]

/-- C6: if aggregation succeeds over a prefix of objects and then hits a
container (matching prefab, payload present) whose payload fails to
decode, the whole `aggregate_chests` call returns that error — the totals
accumulated so far are discarded, never returned. -/
theorem c6_abort_on_error (zs₁ : List Zdo) (z : Zdo) (zs₂ : List Zdo) (e : DecErr)
    (t : List (String × Int))
    (h1 : aggregate_chests zs₁ = .ok t)
    (hc : isChest z = true)
    (hi : z.items.isSome = true)
    (hd : decode_chest_items z.items = .error e) :
    aggregate_chests (zs₁ ++ z :: zs₂) = .error e := by
  unfold aggregate_chests at h1 ⊢
  rw [aggAux_append, h1]
  obtain ⟨raw, hraw⟩ := Option.isSome_iff_exists.mp hi
  rw [hraw] at hd
  simp [aggAux, hc, hraw, hd]

/-- Witness for C6: a three-chest batch whose middle chest has a
truncated payload aggregates to the error, not to partial wood totals. -/
theorem c6_abort_on_error_witness :
    aggregate_chests [woodZ, badZ, woodZ] = Except.error DecErr.truncated :=
  c6_abort_on_error [woodZ] badZ [woodZ] DecErr.truncated [("Wood", 10)] (by rfl) (by rfl)
    (by rfl) (by rfl)

/-- C7: `aggregate_chests` sums stacks per item name over exactly the
objects whose lowercased prefab identifier contains "piece_chest": an
object that fails the (case-insensitive) substring test contributes
nothing even if it carries an inventory payload, and two matching chests
each holding a 10-stack of "Wood" total to 20 — as evaluated on the
concrete batch containing a mixed-case chest prefab and a non-matching
`stone_pile` object carrying the same payload. -/
theorem c7_aggregate :
    (∀ (zs₁ zs₂ : List Zdo) (z : Zdo), isChest z = false →
      aggregate_chests (zs₁ ++ z :: zs₂) = aggregate_chests (zs₁ ++ zs₂)) ∧
    aggregate_chests [woodZ, plainZ, woodZ] = Except.ok [("Wood", 20)] ∧
    isChest woodZ = true ∧
    isChest plainZ = false := by
  refine ⟨?_, by rfl, by rfl, by rfl⟩
  intro zs₁ zs₂ z hz
  unfold aggregate_chests
  rw [aggAux_append, aggAux_append]
  cases h : aggAux zs₁ [] with
  | ok t2 => simp [aggAux, hz]
  | error e => rfl

/-- Witness for C7: dropping the non-matching `stone_pile` object from a
batch leaves the aggregate unchanged. -/
theorem c7_aggregate_witness :
    aggregate_chests [woodZ, plainZ] = aggregate_chests [woodZ] :=
  c7_aggregate.1 [woodZ] [] plainZ (by rfl)

/-! ## The best-run scan -/

theorem scan_spec (data : List Nat) (n : Nat) :
    ∀ s c, (List.range n).foldl (scanStep data) (none, 0) = (s, c) →
      (∀ i, i < n → runLen data i ≤ c) ∧
      (s = none → c = 0) ∧
      (∀ b, s = some b → b < n ∧ runLen data b = c ∧ 0 < c ∧ ∀ j, j < b → runLen data j < c) := by
  induction n with
  | zero =>
    intro s c h
    simp only [List.range_zero, List.foldl_nil] at h
    obtain ⟨hs, hc⟩ := Prod.mk.injEq .. ▸ h
    refine ⟨by omega, fun _ => hc.symm, fun b hb => by rw [← hs] at hb; cases hb⟩
  | succ n ih =>
    intro s c h
    rw [show n + 1 = Nat.succ n from rfl, List.range_succ, List.foldl_append] at h
    simp only [List.foldl_cons, List.foldl_nil] at h
    cases hr : (List.range n).foldl (scanStep data) (none, 0) with
    | mk s0 c0 =>
      rw [hr] at h
      have IH := ih s0 c0 hr
      unfold scanStep at h
      simp only [] at h
      by_cases hgt : c0 < runLen data n
      · rw [if_pos hgt] at h
        obtain ⟨hs, hc⟩ := Prod.mk.injEq .. ▸ h
        refine ⟨?_, ?_, ?_⟩
        · intro i hi
          rcases Nat.lt_succ_iff_lt_or_eq.mp hi with hi' | hi'
          · exact le_trans (IH.1 i hi') (by omega)
          · subst hi'; omega
        · intro hnone; rw [← hs] at hnone; cases hnone
        · intro b hb
          rw [← hs] at hb
          injection hb with hb
          subst hb
          refine ⟨Nat.lt_succ_self n, hc, by omega, ?_⟩
          intro j hj
          exact lt_of_le_of_lt (IH.1 j hj) (by omega)
      · rw [if_neg hgt] at h
        obtain ⟨hs, hc⟩ := Prod.mk.injEq .. ▸ h
        subst hs; subst hc
        refine ⟨?_, IH.2.1, ?_⟩
        · intro i hi
          rcases Nat.lt_succ_iff_lt_or_eq.mp hi with hi' | hi'
          · exact IH.1 i hi'
          · subst hi'; omega
        · intro b hb
          obtain ⟨h1, h2, h3, h4⟩ := IH.2.2 b hb
          exact ⟨Nat.lt_succ_of_lt h1, h2, h3, h4⟩

/-- C5: whenever `find_skills_block` locates a block, the returned offset
achieves the maximum run length over every scanned candidate offset, and
every strictly earlier offset has a strictly shorter run — so among
equally long maximal runs the first (lowest) offset wins, and the result
is determined by the buffer alone. -/
theorem c5_first_maximum (data : List Nat) (best count : Nat)
    (h : find_skills_block data = (some best, count)) :
    runLen data best = count ∧
    (∀ t, t < data.length - 12 → runLen data t ≤ count) ∧
    (∀ t, t < best → runLen data t < count) := by
  have hs := scan_spec data (data.length - 12) (some best) count h
  have hb := hs.2.2 best rfl
  exact ⟨hb.2.1, fun t ht => hs.1 t ht, fun t ht => hb.2.2.2 t ht⟩

/-- Witness for C5 on `c5buf`, which has two equally long maximal runs
(length 1, at offsets 0 and 13): the scan returns the lower offset 0, its
run length equals the returned count, and the tied offset 13 is bounded by
that count. -/
theorem c5_first_maximum_witness :
    find_skills_block c5buf = (some 0, 1) ∧ runLen c5buf 0 = 1 ∧
    runLen c5buf 13 = 1 ∧ runLen c5buf 13 ≤ 1 := by
  have h : find_skills_block c5buf = (some 0, 1) := by decide
  have hc := c5_first_maximum c5buf 0 1 h
  exact ⟨h, hc.1, by decide, hc.2.1 13 (by decide)⟩

/-- C9: the scan range `range(0, len(data) - 12)` excludes the final
possible record offset. Consequently a buffer of exactly 12 bytes is
never scanned at all and yields `(None, 0)` whatever its content, and any
offset the locator does return is strictly below `len - 12`. -/
theorem c9_last_offset_excluded :
    (∀ data : List Nat, data.length = 12 → find_skills_block data = (none, 0)) ∧
    (∀ (data : List Nat) (b c : Nat), find_skills_block data = (some b, c) →
      b < data.length - 12) := by
  constructor
  · intro data h
    unfold find_skills_block
    rw [h]
    rfl
  · intro data b c h
    exact ((scan_spec data _ _ _ h).2.2 b rfl).1

/-- Witness for C9: the 12-byte buffer `sk12` is itself a valid skill
record, yet the locator reports NotFound; and on `c4buf` the returned
offset is strictly below `len - 12`. -/
theorem c9_last_offset_excluded_witness :
    find_skills_block sk12 = (none, 0) ∧ validAt sk12 0 = true ∧
    (1 : Nat) < c4buf.length - 12 := by
  refine ⟨c9_last_offset_excluded.1 sk12 (by decide), by decide, ?_⟩
  exact c9_last_offset_excluded.2 c4buf 1 2 (by decide)

/-! ## Run lengths of handcrafted record runs -/

theorem runLenAux_of_terminated (data : List Nat) :
    ∀ (m : Nat), ∀ (fuel pos : Nat), m ≤ fuel →
      (∀ j, j < m → pos + 12 * j + 12 ≤ data.length ∧ validAt data (pos + 12 * j) = true) →
      (data.length < pos + 12 * m + 12 ∨ validAt data (pos + 12 * m) = false) →
      runLenAux data fuel pos = m := by
  intro m
  induction m with
  | zero =>
    intro fuel pos _ _ hterm
    cases fuel with
    | zero => rfl
    | succ f =>
      show (if pos + 12 ≤ data.length then
              if validAt data pos then 1 + runLenAux data f (pos + 12) else 0
            else 0) = 0
      rcases hterm with hlen | hval
      · rw [if_neg (by omega)]
      · by_cases hin : pos + 12 ≤ data.length
        · rw [if_pos hin]
          rw [show validAt data (pos + 12 * 0) = validAt data pos by norm_num] at hval
          rw [hval]
          simp
        · rw [if_neg hin]
  | succ m ih =>
    intro fuel pos hfuel hrun hterm
    cases fuel with
    | zero => omega
    | succ f =>
      have h0 := hrun 0 (by omega)
      rw [show pos + 12 * 0 = pos by norm_num] at h0
      show (if pos + 12 ≤ data.length then
              if validAt data pos then 1 + runLenAux data f (pos + 12) else 0
            else 0) = m + 1
      rw [if_pos (by omega), h0.2, if_pos rfl]
      have hrec : runLenAux data f (pos + 12) = m := by
        apply ih f (pos + 12) (by omega)
        · intro j hj
          have := hrun (j + 1) (by omega)
          constructor
          · have := this.1; omega
          · rw [show pos + 12 + 12 * j = pos + 12 * (j + 1) by ring]
            exact this.2
        · rw [show pos + 12 + 12 * m = pos + 12 * (m + 1) by ring]
          exact hterm
      omega

theorem runLen_of_invalid (data : List Nat) (pos : Nat)
    (h : data.length < pos + 12 ∨ validAt data pos = false) :
    runLen data pos = 0 := by
  apply runLenAux_of_terminated data 0 64 pos (by omega) (by omega)
  rcases h with h | h
  · left; omega
  · right; rw [show pos + 12 * 0 = pos by norm_num]; exact h

/-- C4 (amended): if a buffer contains a contiguous run of `N` valid skill
records (`1 <= N <= 64`) starting at `start`, the validity predicate fails
at every other readable offset, AND the run's start offset lies inside the
scanned range (`start + 12 < len` — i.e. the run is not a single record
occupying the final record offset, which the scan never examines), then
`find_skills_block` returns exactly `(start, N)`. -/
theorem c4_run_located (data : List Nat) (start N : Nat)
    (h1 : 1 ≤ N) (h64 : N ≤ 64)
    (hscan : start + 12 < data.length)
    (hrun : ∀ k, k < N → start + 12 * k + 12 ≤ data.length ∧
      validAt data (start + 12 * k) = true)
    (hout : ∀ p, p < data.length → p + 12 ≤ data.length →
      (∀ k, k < N → p ≠ start + 12 * k) → validAt data p = false) :
    find_skills_block data = (some start, N) := by
  have hterm : data.length < start + 12 * N + 12 ∨ validAt data (start + 12 * N) = false := by
    by_cases hin : start + 12 * N + 12 ≤ data.length
    · right
      apply hout (start + 12 * N) (by omega) (by omega)
      intro k hk hne
      omega
    · left; omega
  have hruns : ∀ k, k ≤ N → runLen data (start + 12 * k) = N - k := by
    intro k hk
    apply runLenAux_of_terminated data (N - k) 64 (start + 12 * k) (by omega)
    · intro j hj
      have := hrun (k + j) (by omega)
      constructor
      · have := this.1; omega
      · rw [show start + 12 * k + 12 * j = start + 12 * (k + j) by ring]
        exact this.2
    · rw [show start + 12 * k + 12 * (N - k) = start + 12 * N by omega]
      exact hterm
  have hstartrun : runLen data start = N := by
    have := hruns 0 (by omega)
    rw [show start + 12 * 0 = start by norm_num] at this
    omega
  have hmax : ∀ i, i < data.length - 12 → runLen data i ≤ N := by
    intro i hi
    by_cases hv : validAt data i = true
    · by_cases hinrun : ∀ k, k < N → i ≠ start + 12 * k
      · have := hout i (by omega) (by omega) hinrun
        rw [hv] at this
        cases this
      · push_neg at hinrun
        obtain ⟨k, hk, hik⟩ := hinrun
        rw [hik, hruns k (by omega)]
        omega
    · rw [runLen_of_invalid data i (Or.inr (by simpa using hv))]
      omega
  cases hr : find_skills_block data with
  | mk s c =>
    have spec := scan_spec data (data.length - 12) s c hr
    have hstart_in : start < data.length - 12 := by omega
    have hcN : N ≤ c := hstartrun ▸ spec.1 start hstart_in
    cases s with
    | none =>
      have := spec.2.1 rfl
      omega
    | some b =>
      obtain ⟨hbn, hbrun, hcpos, hbefore⟩ := spec.2.2 b rfl
      have hcle : c ≤ N := hbrun ▸ hmax b hbn
      have hceq : c = N := by omega
      have hbvalid : validAt data b = true := by
        by_contra hbv
        have := runLen_of_invalid data b (Or.inr (by simpa using hbv))
        omega
      have hbin : ¬ ∀ k, k < N → b ≠ start + 12 * k := by
        intro hall
        have := hout b (by omega) (by omega) hall
        rw [hbvalid] at this
        cases this
      push_neg at hbin
      obtain ⟨k, hk, hbk⟩ := hbin
      have : runLen data b = N - k := hbk ▸ hruns k (by omega)
      have hk0 : k = 0 := by omega
      subst hk0
      have hbstart : b = start := by omega
      rw [hbstart, hceq]

/-- Witness for C4 on `c4buf`: a junk byte followed by a run of two valid
records at offset 1, invalid at every other readable offset; the locator
returns `(1, 2)`. -/
theorem c4_run_located_witness : find_skills_block c4buf = (some 1, 2) := by
  apply c4_run_located c4buf 1 2 (by decide) (by decide) (by decide)
  · decide
  · decide

/-- Counterexample for C4 as stated: the 12-byte buffer `sk12` is a run of
`N = 1` valid skill record at offset 0, and there is no other readable
offset, so the claim's hypotheses hold — it predicts `(some 0, 1)`. But
offset 0 is `len - 12`, which the scan range excludes, so
`find_skills_block` returns `(none, 0)`. -/
theorem c4_counterexample :
    validAt sk12 0 = true ∧ sk12.length = 12 ∧ find_skills_block sk12 = (none, 0) := by
  decide

/-! ## Dictionary lemmas for the skill table -/

theorem dictGet_dictInsert (t : List (String × Nat)) (k : String) (v : Nat) (k' : String) :
    dictGet (dictInsert t k v) k' = if k = k' then some v else dictGet t k' := by
  induction t with
  | nil => rfl
  | cons a rest ih =>
    obtain ⟨ak, av⟩ := a
    by_cases hak : ak = k
    · subst hak
      simp only [dictInsert, if_pos rfl]
      by_cases hk' : ak = k' <;> simp [dictGet, hk']
    · simp only [dictInsert, if_neg hak]
      by_cases h1 : ak = k' <;> by_cases h2 : k = k'
      · exact absurd (h1.trans h2.symm) hak
      · simp [dictGet, h1, h2]
      · subst h2; simp [dictGet, h1, ih]
      · simp [dictGet, h1, h2, ih]

theorem length_dictInsert (t : List (String × Nat)) (k : String) (v : Nat) :
    (dictInsert t k v).length =
      if (dictGet t k).isSome then t.length else t.length + 1 := by
  induction t with
  | nil => rfl
  | cons a rest ih =>
    obtain ⟨ak, av⟩ := a
    by_cases hak : ak = k
    · simp [dictInsert, dictGet, hak]
    · simp only [dictInsert, dictGet, if_neg hak, List.length_cons, ih]
      by_cases hs : (dictGet rest k).isSome <;> simp [hs]

theorem isSome_dictGet_dictInsert (t : List (String × Nat)) (k : String) (v : Nat)
    (k' : String) (h : (dictGet t k').isSome = true) :
    (dictGet (dictInsert t k v) k').isSome = true := by
  rw [dictGet_dictInsert]
  by_cases hk : k = k' <;> simp [hk, h]

theorem lastMatch_cons {α : Type} (p : α → Bool) (x : α) (xs : List α) :
    lastMatch p (x :: xs) =
      match lastMatch p xs with
      | some y => some y
      | none => if p x then some x else none := by
  have key : ∀ (l : List α) (acc : Option α),
      l.foldl (fun a y => if p y then some y else a) acc =
        match lastMatch p l with
        | some y => some y
        | none => acc := by
    intro l
    induction l with
    | nil => intro acc; rfl
    | cons z zs ih =>
      intro acc
      show zs.foldl _ (if p z then some z else acc) = _
      rw [ih]
      show _ = match zs.foldl (fun a y => if p y then some y else a) (if p z then some z else none) with
        | some y => some y
        | none => acc
      rw [ih]
      by_cases hz : p z <;> cases hzs : lastMatch p zs <;> simp [hz]
  show xs.foldl _ (if p x then some x else none) = _
  rw [key]

theorem lastMatch_congr {α : Type} (p q : α → Bool) :
    ∀ (l : List α), (∀ x ∈ l, p x = q x) → lastMatch p l = lastMatch q l := by
  intro l
  induction l with
  | nil => intro _; rfl
  | cons x xs ih =>
    intro h
    rw [lastMatch_cons, lastMatch_cons, ih (fun y hy => h y (List.mem_cons_of_mem x hy)),
      h x (List.mem_cons_self x xs)]

theorem lastMatch_map {α β : Type} (p : β → Bool) (f : α → β) :
    ∀ (l : List α), lastMatch p (l.map f) = (lastMatch (fun x => p (f x)) l).map f := by
  intro l
  induction l with
  | nil => rfl
  | cons x xs ih =>
    rw [List.map_cons, lastMatch_cons, lastMatch_cons, ih]
    cases hxs : lastMatch (fun y => p (f y)) xs <;> by_cases hx : p (f x) <;> simp [hx]

theorem dictGet_insertPairs (k : String) :
    ∀ (ps : List (String × Nat)) (t : List (String × Nat)),
      dictGet (insertPairs t ps) k =
        match lastMatch (fun p => decide (p.1 = k)) ps with
        | some p => some p.2
        | none => dictGet t k := by
  intro ps
  induction ps with
  | nil => intro t; rfl
  | cons p ps ih =>
    intro t
    show dictGet (insertPairs (dictInsert t p.1 p.2) ps) k = _
    rw [ih, lastMatch_cons]
    cases hps : lastMatch (fun p => decide (p.1 = k)) ps with
    | some y => rfl
    | none =>
      rw [dictGet_dictInsert]
      by_cases hp : p.1 = k <;> simp [hp]

theorem length_insertPairs_le :
    ∀ (ps : List (String × Nat)) (t : List (String × Nat)),
      (insertPairs t ps).length ≤ t.length + ps.length := by
  intro ps
  induction ps with
  | nil => intro t; simp [insertPairs]
  | cons p ps ih =>
    intro t
    show (insertPairs (dictInsert t p.1 p.2) ps).length ≤ _
    have h1 := ih (dictInsert t p.1 p.2)
    have h2 := length_dictInsert t p.1 p.2
    by_cases hs : (dictGet t p.1).isSome = true <;> simp [hs] at h2 <;>
      simp [List.length_cons] <;> omega

theorem length_insertPairs_of_mem :
    ∀ (ps : List (String × Nat)) (t : List (String × Nat)),
      (∃ p ∈ ps, (dictGet t p.1).isSome = true) →
      (insertPairs t ps).length < t.length + ps.length := by
  intro ps
  induction ps with
  | nil =>
    intro t h
    obtain ⟨p, hp, _⟩ := h
    cases hp
  | cons p ps ih =>
    intro t h
    show (insertPairs (dictInsert t p.1 p.2) ps).length < _
    by_cases hs : (dictGet t p.1).isSome = true
    · have h1 := length_insertPairs_le ps (dictInsert t p.1 p.2)
      have h2 := length_dictInsert t p.1 p.2
      rw [hs] at h2
      simp at h2
      simp [List.length_cons]
      omega
    · obtain ⟨q, hq, hqs⟩ := h
      rcases List.mem_cons.mp hq with hq' | hq'
      · rw [hq'] at hqs; exact absurd hqs hs
      · have hmon := isSome_dictGet_dictInsert t p.1 p.2 q.1 hqs
        have h1 := ih (dictInsert t p.1 p.2) ⟨q, hq', hmon⟩
        have h2 := length_dictInsert t p.1 p.2
        by_cases hs2 : (dictGet t p.1).isSome = true <;> simp [hs2] at h2 <;>
          simp [List.length_cons] <;> omega

theorem length_insertPairs_of_dup (k : String) :
    ∀ (ps : List (String × Nat)) (t : List (String × Nat)),
      2 ≤ (ps.filter (fun p => decide (p.1 = k))).length →
      (insertPairs t ps).length < t.length + ps.length := by
  intro ps
  induction ps with
  | nil => intro t h; simp at h
  | cons p ps ih =>
    intro t h
    show (insertPairs (dictInsert t p.1 p.2) ps).length < _
    by_cases hp : p.1 = k
    · have hfil : 1 ≤ (ps.filter (fun p => decide (p.1 = k))).length := by
        rw [List.filter_cons, if_pos (by simp [hp])] at h
        simp at h
        omega
      have hex : ∃ q ∈ ps, q.1 = k := by
        have hne : (ps.filter (fun p => decide (p.1 = k))) ≠ [] := by
          intro hnil; rw [hnil] at hfil; simp at hfil
        obtain ⟨q, hq⟩ := List.exists_mem_of_ne_nil _ hne
        exact ⟨q, (List.mem_filter.mp hq).1, by simpa using (List.mem_filter.mp hq).2⟩
      obtain ⟨q, hq, hqk⟩ := hex
      have hqget : (dictGet (dictInsert t p.1 p.2) q.1).isSome = true := by
        rw [dictGet_dictInsert, if_pos (by rw [hp, hqk])]
        rfl
      have h1 := length_insertPairs_of_mem ps (dictInsert t p.1 p.2) ⟨q, hq, hqget⟩
      have h2 := length_dictInsert t p.1 p.2
      by_cases hs2 : (dictGet t p.1).isSome = true <;> simp [hs2] at h2 <;>
        simp [List.length_cons] <;> omega
    · have hfil : 2 ≤ (ps.filter (fun p => decide (p.1 = k))).length := by
        rw [List.filter_cons, if_neg (by simp [hp])] at h
        exact h
      have h1 := ih (dictInsert t p.1 p.2) hfil
      have h2 := length_dictInsert t p.1 p.2
      by_cases hs2 : (dictGet t p.1).isSome = true <;> simp [hs2] at h2 <;>
        simp [List.length_cons] <;> omega

/-! ## C10: duplicate skill ids overwrite -/

theorem decodeSkillsGo_insertPairs (m : Int → Option String) (data : List Nat) :
    ∀ (fuel pos : Nat) (tbl : List (String × Nat)),
      decodeSkillsGo m data fuel pos tbl =
        insertPairs tbl ((skillRecAux data fuel pos).map
          (fun r => (skillName m r.1, levelHundredths r.2))) := by
  intro fuel
  induction fuel with
  | zero => intro pos tbl; rfl
  | succ f ih =>
    intro pos tbl
    by_cases hin : pos + 12 ≤ data.length
    · by_cases hv : validAt data pos = true
      · show (if pos + 12 ≤ data.length then
                if validAt data pos then
                  decodeSkillsGo m data f (pos + 12)
                    (dictInsert tbl (skillName m (sidAt data pos))
                      (levelHundredths (lvlWordAt data pos)))
                else tbl
              else tbl) = _
        rw [if_pos hin, hv, if_pos rfl, ih]
        show _ = insertPairs tbl ((skillRecAux data (f + 1) pos).map _)
        rw [show skillRecAux data (f + 1) pos =
              (sidAt data pos, lvlWordAt data pos) :: skillRecAux data f (pos + 12) by
            show (if pos + 12 ≤ data.length then
                    if validAt data pos then
                      (sidAt data pos, lvlWordAt data pos) :: skillRecAux data f (pos + 12)
                    else []
                  else []) = _
            rw [if_pos hin, hv, if_pos rfl]]
        rfl
      · show (if pos + 12 ≤ data.length then
                if validAt data pos then
                  decodeSkillsGo m data f (pos + 12)
                    (dictInsert tbl (skillName m (sidAt data pos))
                      (levelHundredths (lvlWordAt data pos)))
                else tbl
              else tbl) = _
        rw [if_pos hin, if_neg (by simpa using hv)]
        show _ = insertPairs tbl ((skillRecAux data (f + 1) pos).map _)
        rw [show skillRecAux data (f + 1) pos = [] by
            show (if pos + 12 ≤ data.length then
                    if validAt data pos then
                      (sidAt data pos, lvlWordAt data pos) :: skillRecAux data f (pos + 12)
                    else []
                  else []) = _
            rw [if_pos hin, if_neg (by simpa using hv)]]
        rfl
    · show (if pos + 12 ≤ data.length then
              if validAt data pos then
                decodeSkillsGo m data f (pos + 12)
                  (dictInsert tbl (skillName m (sidAt data pos))
                    (levelHundredths (lvlWordAt data pos)))
              else tbl
            else tbl) = _
      rw [if_neg hin]
      show _ = insertPairs tbl ((skillRecAux data (f + 1) pos).map _)
      rw [show skillRecAux data (f + 1) pos = [] by
          show (if pos + 12 ≤ data.length then
                  if validAt data pos then
                    (sidAt data pos, lvlWordAt data pos) :: skillRecAux data f (pos + 12)
                  else []
                else []) = _
          rw [if_neg hin]]
      rfl

/-- C10: when the located block's accepted record sequence contains two or
more records with the same skill id (and no other id in the run resolves
to the same name), `decode_skills` succeeds and its table holds a single
entry under that id's resolved name whose level is the one of the last
such record read — later records overwrite earlier ones — and the table
has strictly fewer entries than the number of records decoded. -/
theorem c10_duplicate_ids (m : Int → Option String) (data : List Nat)
    (start count : Nat) (sid : Int)
    (hf : find_skills_block data = (some start, count)) (hc : count ≠ 0)
    (hdup : 2 ≤ ((skillRecs data start).filter (fun r => decide (r.1 = sid))).length)
    (hinj : ∀ r ∈ skillRecs data start, skillName m r.1 = skillName m sid → r.1 = sid) :
    decode_skills m data = Except.ok (decode_skills_table m data start) ∧
    dictGet (decode_skills_table m data start) (skillName m sid) =
      (lastMatch (fun r => decide (r.1 = sid)) (skillRecs data start)).map
        (fun r => levelHundredths r.2) ∧
    (decode_skills_table m data start).length < (skillRecs data start).length := by
  have hbridge : decode_skills_table m data start =
      insertPairs [] ((skillRecs data start).map
        (fun r => (skillName m r.1, levelHundredths r.2))) :=
    decodeSkillsGo_insertPairs m data (data.length + 1) start []
  have hpred : ∀ r ∈ skillRecs data start,
      (decide (skillName m r.1 = skillName m sid)) = (decide (r.1 = sid)) := by
    intro r hr
    by_cases h : r.1 = sid
    · simp [h]
    · have : skillName m r.1 ≠ skillName m sid := fun hn => h (hinj r hr hn)
      simp [h, this]
  refine ⟨?_, ?_, ?_⟩
  · unfold decode_skills
    rw [hf]
    simp [hc]
  · rw [hbridge, dictGet_insertPairs, lastMatch_map]
    have : lastMatch
        (fun x => decide ((skillName m x.1, levelHundredths x.2).1 = skillName m sid))
        (skillRecs data start) =
        lastMatch (fun r => decide (r.1 = sid)) (skillRecs data start) :=
      lastMatch_congr _ _ _ (fun r hr => hpred r hr)
    rw [this]
    cases hlm : lastMatch (fun r => decide (r.1 = sid)) (skillRecs data start) <;>
      simp [dictGet]
  · rw [hbridge]
    have hlen : ((skillRecs data start).map
        (fun r => (skillName m r.1, levelHundredths r.2))).length =
        (skillRecs data start).length := List.length_map _ _
    have hfil : ((skillRecs data start).map
          (fun r => (skillName m r.1, levelHundredths r.2))).filter
            (fun p => decide (p.1 = skillName m sid)) =
        ((skillRecs data start).filter
          (fun r => decide (r.1 = sid))).map
            (fun r => (skillName m r.1, levelHundredths r.2)) := by
      rw [List.filter_map]
      exact congrArg _ (List.filter_congr (fun r hr => hpred r hr))
    have hdup2 : 2 ≤ (((skillRecs data start).map
        (fun r => (skillName m r.1, levelHundredths r.2))).filter
          (fun p => decide (p.1 = skillName m sid))).length := by
      rw [hfil, List.length_map]
      exact hdup
    have := length_insertPairs_of_dup (skillName m sid) _ [] hdup2
    simpa [hlen] using this

/-- Witness for C10 on `c10buf` (two valid records with id 1, level 0.0
then level 2.0) with the concrete name table `c10m`: the decode succeeds,
the single "Swords" entry carries the level of the last record
(`round(2.0, 2)`, i.e. 200 hundredths), and the table is shorter than the
record run. -/
theorem c10_duplicate_ids_witness :
    decode_skills c10m c10buf = Except.ok (decode_skills_table c10m c10buf 0) ∧
    dictGet (decode_skills_table c10m c10buf 0) "Swords" = some 200 ∧
    (decode_skills_table c10m c10buf 0).length < (skillRecs c10buf 0).length := by
  have h := c10_duplicate_ids c10m c10buf 0 2 1 (by decide) (by decide) (by decide)
    (by decide)
  refine ⟨h.1, ?_, h.2.2⟩
  have h2 := h.2.1
  rw [show skillName c10m 1 = "Swords" from rfl] at h2
  exact h2.trans (by decide)
